import Mathlib

/-!
Verification of the user-account validation core of `mainflux/users`
(file `users/users.go`): the `User` entity, its `Validate` method and the
`isEmail` predicate.  Go strings are embedded as `List Char`; `len` on a
Go string counts UTF-8 bytes, embedded here as `goLen`.  The three
precompiled regular expressions of the source are embedded as structural
boolean predicates, and the external IDNA/punycode conversion
(`idna.ToASCII` of golang.org/x/net) is modelled from the spec.
-/

namespace Mainflux.Users

/-- Constant `minPassLen = 8` from `users.go`. -/
def minPassLen : Nat := 8

/-- Constant `maxLocalLen = 64` from `users.go`. -/
def maxLocalLen : Nat := 64

/-- Constant `maxDomainLen = 255` from `users.go`. -/
def maxDomainLen : Nat := 255

/-- Constant `maxTLDLen = 24` from `users.go`. -/
def maxTLDLen : Nat := 24

/-- Constant `atSeparator = "@"` from `users.go` (a one-character string,
embedded as the character itself). -/
def atSeparator : Char := '@'

/-- Constant `dotSeparator = "."` from `users.go` (a one-character string,
embedded as the character itself). -/
def dotSeparator : Char := '.'

/-- Go `len` on a string counts UTF-8 bytes, not characters. -/
def goLen (s : List Char) : Nat := (s.map Char.utf8Size).sum

/-- Embedding of `strings.Split(s, sep)` for a one-character separator:
splits around every occurrence of `sep`; the empty string yields `[[]]`,
matching Go's `Split("", sep) = [""]`. -/
def goSplit (sep : Char) : List Char → List (List Char)
  | [] => [[]]
  | c :: rest =>
    match goSplit sep rest with
    | [] => if c = sep then [[], []] else [[c]]
    | h :: t => if c = sep then [] :: h :: t else (c :: h) :: t

/-- Character class of RE2's perl class backslash-s, used by `hostRegexp`:
tab (9), newline (10), form feed (12), carriage return (13), space (32). -/
def goSpace (c : Char) : Bool := [9, 10, 12, 13, 32].contains c.toNat

/-- Character class of `userRegexp` from `users.go`: ASCII letters, digits,
and the punctuation codepoints 33 (!), 35 (#), 36 ($), 37 (%), 38 (&),
39 (apostrophe), 42 (*), 43 (+), 45 (-), 46 (.), 47 (/), 61 (=), 63 (?),
94 (^), 95 (_), 96 (backquote), 123, 124, 125 (curly braces and bar),
126 (~). -/
def userChar (c : Char) : Bool :=
  (97 ≤ c.toNat && c.toNat ≤ 122) || (65 ≤ c.toNat && c.toNat ≤ 90) ||
  (48 ≤ c.toNat && c.toNat ≤ 57) ||
  [33, 35, 36, 37, 38, 39, 42, 43, 45, 46, 47, 61, 63, 94, 95, 96,
   123, 124, 125, 126].contains c.toNat

/-- Embedding of `userRegexp.MatchString`: the whole string is anchored to
one-or-more characters of the allowed class, so it matches exactly the
non-empty strings all of whose characters satisfy `userChar`. -/
def matchUser (cs : List Char) : Bool := !cs.isEmpty && cs.all userChar

/-- Embedding of `hostRegexp.MatchString` (anchored pattern: one-or-more
non-whitespace, a literal dot, one-or-more non-whitespace): equivalently,
no character is whitespace and some dot occurs at an interior position. -/
def matchHost (cs : List Char) : Bool :=
  cs.all (fun c => !goSpace c) && ((cs.drop 1).dropLast).contains dotSeparator

/-- True when the list contains two consecutive dots (the third alternative
of `userDotRegexp`). -/
def hasDoubleDot : List Char → Bool
  | [] => false
  | [_] => false
  | a :: b :: rest => (a = dotSeparator && b = dotSeparator) || hasDoubleDot (b :: rest)

/-- Embedding of `userDotRegexp.MatchString` (unanchored search for: a dot
at the start, or a dot at the end, or two-or-more consecutive dots). -/
def matchUserDot (cs : List Char) : Bool :=
  cs.head? = some dotSeparator || cs.getLast? = some dotSeparator || hasDoubleDot cs

/-- Modelled from the spec: the external IDNA/punycode ASCII-conversion
collaborator consumed by this core (spec section 6: a function mapping a
Unicode string to its ASCII-compatible encoding, or failing on malformed
input; `idna.ToASCII` of golang.org/x/net).  On all-ASCII input that
conversion is the identity and succeeds, which is all the concrete claims
need; for non-ASCII input this model reports failure, and every claim that
depends on the conversion of non-ASCII input is instead stated over an
arbitrary conversion function. -/
def idnaToASCII (s : List Char) : Option (List Char) :=
  if s.all (fun c => c.toNat < 128) then some s else none

/-- Embedding of `isEmail` from `users.go`, parameterized by the external
ASCII-conversion function `toA` (standing for `idna.ToASCII`).  Each guard
mirrors one short-circuit return of the source, in order. -/
def isEmailWith (toA : List Char → Option (List Char)) (email : List Char) : Bool :=
  if email.isEmpty then false
  else
    match goSplit atSeparator email with
    | [locl, host] =>
      if locl.isEmpty then false
      else if maxLocalLen < goLen locl then false
      else
        match goSplit dotSeparator host with
        | [domain, ext] =>
          if domain.isEmpty then false
          else if maxDomainLen < goLen domain then false
          else if ext.isEmpty then false
          else if maxTLDLen < goLen ext then false
          else
            match toA locl, toA host with
            | some punyLocal, some punyHost =>
              if matchUserDot punyLocal || !matchUser punyLocal
                  || !matchHost punyHost then false
              else true
            | _, _ => false
        | _ => false
    | _ => false

/-- The `isEmail` predicate of `users.go`, with the conversion collaborator
instantiated to its model. -/
def isEmail (s : String) : Bool := isEmailWith idnaToASCII s.data

/-- Error kinds of the `errors` collaborator that this core raises
(spec section 7); `Validate` only ever produces `MalformedEntity`. -/
inductive ErrKind where
  | MalformedEntity
  | NotFound
  | Conflict
  | Internal
  deriving DecidableEq, Repr

/-- Values of the heterogeneous `Metadata` map (`map[string]interface{}`),
modelled per spec section 9 as a sum over strings, numbers, booleans and
nested mappings. -/
inductive MetaValue where
  | vStr : String → MetaValue
  | vNum : Int → MetaValue
  | vBool : Bool → MetaValue
  | vMap : List (String × MetaValue) → MetaValue

/-- The `User` struct of `users.go`: email, password and metadata. -/
structure User where
  Email : String
  Password : String
  Metadata : List (String × MetaValue)

/-- Embedding of the `Validate` method of `users.go`: `none` is Go's `nil`
error. -/
def User.Validate (u : User) : Option ErrKind :=
  if !isEmail u.Email then some ErrKind.MalformedEntity
  else if goLen u.Password.data < minPassLen then some ErrKind.MalformedEntity
  else none

/-- The Go method call `u.Validate()` in state-passing form: the receiver is
passed by value and the body of `Validate` assigns to none of its fields, so
the post-state of the receiver is its pre-state. -/
def User.ValidateCall (u : User) : User × Option ErrKind := (u, u.Validate)

/-- Two successive calls of the same function on the same argument, used to
state determinism of the pure validation functions. -/
def callTwice {α β : Type} (f : α → β) (x : α) : β × β := (f x, f x)

/-- An ASCII-conversion function standing for a punycode encoding that
expands the local part "aaa" to 65 bytes of output: `isEmail` never
re-checks the length limit after conversion, so such an expansion is
accepted. -/
def wideToASCII (s : List Char) : Option (List Char) :=
  if s = "aaa".data then some (List.replicate 65 'a') else some s

theorem goSplit_ne_nil (sep : Char) (l : List Char) : goSplit sep l ≠ [] := by
  induction l with
  | nil => simp [goSplit]
  | cons c rest ih =>
    simp only [goSplit]
    split <;> split <;> simp

theorem goSplit_length (sep : Char) (l : List Char) :
    (goSplit sep l).length = l.count sep + 1 := by
  induction l with
  | nil => simp [goSplit]
  | cons c rest ih =>
    simp only [goSplit]
    cases h : goSplit sep rest with
    | nil => exact absurd h (goSplit_ne_nil sep rest)
    | cons hd tl =>
      rw [h] at ih
      by_cases hc : c = sep <;>
        simp [hc, List.count_cons] at ih ⊢ <;> omega

theorem goSplit_not_mem (sep : Char) (l : List Char) (h : sep ∉ l) :
    goSplit sep l = [l] := by
  induction l with
  | nil => simp [goSplit]
  | cons c rest ih =>
    simp only [List.mem_cons, not_or] at h
    have hne : ¬ c = sep := fun hc => h.1 hc.symm
    simp only [goSplit, ih h.2, if_neg hne]

theorem goSplit_append (sep : Char) (l r : List Char) (h : sep ∉ l) :
    goSplit sep (l ++ sep :: r) = l :: goSplit sep r := by
  induction l with
  | nil =>
    simp only [List.nil_append, goSplit]
    cases hr : goSplit sep r with
    | nil => exact absurd hr (goSplit_ne_nil sep r)
    | cons hd tl => simp
  | cons c rest ih =>
    simp only [List.mem_cons, not_or] at h
    have hne : ¬ c = sep := fun hc => h.1 hc.symm
    have ih2 := ih h.2
    simp only [List.cons_append, goSplit, List.append_eq, ih2, if_neg hne]

theorem append_at_not_empty (locl host : List Char) :
    (locl ++ atSeparator :: host).isEmpty = false := by
  cases locl <;> rfl


theorem isEmailWith_host_count (toA : List Char → Option (List Char))
    (locl host : List Char) (hl : atSeparator ∉ locl) (hh : atSeparator ∉ host)
    (hdots : host.count dotSeparator ≠ 1) :
    isEmailWith toA (locl ++ atSeparator :: host) = false := by
  have hsplit : goSplit atSeparator (locl ++ atSeparator :: host) = [locl, host] := by
    rw [goSplit_append _ _ _ hl, goSplit_not_mem _ _ hh]
  have hlen : (goSplit dotSeparator host).length ≠ 2 := by
    rw [goSplit_length]; omega
  unfold isEmailWith
  simp only [hsplit, append_at_not_empty, Bool.false_eq_true, if_false]
  split
  · rfl
  · split
    · rfl
    · cases hs : goSplit dotSeparator host with
      | nil => rfl
      | cons a t =>
        cases t with
        | nil => rfl
        | cons b t2 =>
          cases t2 with
          | nil => rw [hs] at hlen; simp at hlen
          | cons c t3 => rfl

theorem isEmailWith_at_count (toA : List Char → Option (List Char))
    (email : List Char) (hat : email.count atSeparator ≠ 1) :
    isEmailWith toA email = false := by
  have hlen : (goSplit atSeparator email).length ≠ 2 := by
    rw [goSplit_length]; omega
  unfold isEmailWith
  split
  · rfl
  · cases hs : goSplit atSeparator email with
    | nil => rfl
    | cons a t =>
      cases t with
      | nil => rfl
      | cons b t2 =>
        cases t2 with
        | nil => rw [hs] at hlen; simp at hlen
        | cons c t3 => rfl

theorem isEmailWith_dotted_local (toA : List Char → Option (List Char))
    (locl host l : List Char) (hl : atSeparator ∉ locl) (hh : atSeparator ∉ host)
    (hA : toA locl = some l) (hdot : matchUserDot l = true) :
    isEmailWith toA (locl ++ atSeparator :: host) = false := by
  have hsplit : goSplit atSeparator (locl ++ atSeparator :: host) = [locl, host] := by
    rw [goSplit_append _ _ _ hl, goSplit_not_mem _ _ hh]
  unfold isEmailWith
  simp only [hsplit, append_at_not_empty, Bool.false_eq_true, if_false, hA]
  split
  · rfl
  · split
    · rfl
    · split
      · split
        · rfl
        · split
          · rfl
          · split
            · rfl
            · split
              · rfl
              · cases hOpt : toA host with
                | none => simp
                | some ph => simp [hdot]
      · rfl

theorem isEmailWith_long_local (toA : List Char → Option (List Char))
    (locl host : List Char) (hl : atSeparator ∉ locl) (hh : atSeparator ∉ host)
    (hbytes : 64 < goLen locl) :
    isEmailWith toA (locl ++ atSeparator :: host) = false := by
  have hsplit : goSplit atSeparator (locl ++ atSeparator :: host) = [locl, host] := by
    rw [goSplit_append _ _ _ hl, goSplit_not_mem _ _ hh]
  unfold isEmailWith
  simp only [hsplit, append_at_not_empty, Bool.false_eq_true, if_false]
  split
  · rfl
  · rw [if_pos]
    show maxLocalLen < goLen locl
    exact hbytes

theorem isEmailWith_long_domain (toA : List Char → Option (List Char))
    (locl domain ext : List Char)
    (hl : atSeparator ∉ locl) (hd : atSeparator ∉ domain) (he : atSeparator ∉ ext)
    (hdd : dotSeparator ∉ domain) (hde : dotSeparator ∉ ext)
    (hbytes : 255 < goLen domain) :
    isEmailWith toA (locl ++ atSeparator :: (domain ++ dotSeparator :: ext)) = false := by
  have hhost : atSeparator ∉ (domain ++ dotSeparator :: ext) := by
    simp only [List.mem_append, List.mem_cons, not_or]
    exact ⟨hd, by decide, he⟩
  have hsplitAt : goSplit atSeparator (locl ++ atSeparator :: (domain ++ dotSeparator :: ext))
      = [locl, domain ++ dotSeparator :: ext] := by
    rw [goSplit_append _ _ _ hl, goSplit_not_mem _ _ hhost]
  have hsplitDot : goSplit dotSeparator (domain ++ dotSeparator :: ext) = [domain, ext] := by
    rw [goSplit_append _ _ _ hdd, goSplit_not_mem _ _ hde]
  unfold isEmailWith
  simp only [hsplitAt, append_at_not_empty, Bool.false_eq_true, if_false]
  split
  · rfl
  · split
    · rfl
    · simp only [hsplitDot]
      split
      · rfl
      · rw [if_pos]
        show maxDomainLen < goLen domain
        exact hbytes

theorem isEmailWith_long_ext (toA : List Char → Option (List Char))
    (locl domain ext : List Char)
    (hl : atSeparator ∉ locl) (hd : atSeparator ∉ domain) (he : atSeparator ∉ ext)
    (hdd : dotSeparator ∉ domain) (hde : dotSeparator ∉ ext)
    (hbytes : 24 < goLen ext) :
    isEmailWith toA (locl ++ atSeparator :: (domain ++ dotSeparator :: ext)) = false := by
  have hhost : atSeparator ∉ (domain ++ dotSeparator :: ext) := by
    simp only [List.mem_append, List.mem_cons, not_or]
    exact ⟨hd, by decide, he⟩
  have hsplitAt : goSplit atSeparator (locl ++ atSeparator :: (domain ++ dotSeparator :: ext))
      = [locl, domain ++ dotSeparator :: ext] := by
    rw [goSplit_append _ _ _ hl, goSplit_not_mem _ _ hhost]
  have hsplitDot : goSplit dotSeparator (domain ++ dotSeparator :: ext) = [domain, ext] := by
    rw [goSplit_append _ _ _ hdd, goSplit_not_mem _ _ hde]
  unfold isEmailWith
  simp only [hsplitAt, append_at_not_empty, Bool.false_eq_true, if_false]
  split
  · rfl
  · split
    · rfl
    · simp only [hsplitDot]
      split
      · rfl
      · split
        · rfl
        · split
          · rfl
          · rw [if_pos]
            show maxTLDLen < goLen ext
            exact hbytes

/-- Claim C1: `User.Validate` fails with kind `MalformedEntity` if and only
if the email predicate returns false for the Email or the Password has
byte length strictly less than 8; otherwise it succeeds (returns no
error).  In particular, with a valid Email, a Password of length 7 yields
`MalformedEntity` and one of length 8 passes the password check. -/
theorem validate_malformed_iff (u : User) :
    (u.Validate = some ErrKind.MalformedEntity ↔
      (isEmail u.Email = false ∨ goLen u.Password.data < 8))
    ∧ (u.Validate = none ↔ (isEmail u.Email = true ∧ 8 ≤ goLen u.Password.data))
    ∧ (isEmail u.Email = true → goLen u.Password.data = 7 →
        u.Validate = some ErrKind.MalformedEntity)
    ∧ (isEmail u.Email = true → goLen u.Password.data = 8 → u.Validate = none) := by
  unfold User.Validate minPassLen
  by_cases he : isEmail u.Email <;> (simp [he]; try omega)

/-- Witness for C1 at a concrete user: Email "user@example.com" with the
8-byte Password "password" validates with no error. -/
theorem validate_malformed_iff_witness :
    (User.mk "user@example.com" "password" []).Validate = none :=
  (validate_malformed_iff (User.mk "user@example.com" "password" [])).2.2.2
    (by decide) (by decide)

/-- Claim C2: whenever the part after the single at-sign (the host) does not
contain exactly one dot — so that splitting it on the dot separator does
not yield exactly two parts — the email predicate returns false, for every
conversion collaborator; sub-domains beyond one level are rejected. -/
theorem host_split_two_parts_required (toA : List Char → Option (List Char))
    (locl host : List Char) (hl : atSeparator ∉ locl) (hh : atSeparator ∉ host)
    (hdots : host.count dotSeparator ≠ 1) :
    isEmailWith toA (locl ++ atSeparator :: host) = false :=
  isEmailWith_host_count toA locl host hl hh hdots

/-- Witness for C2 at the concrete input "a@bcom", whose host has zero
dots. -/
theorem host_split_two_parts_required_witness :
    isEmailWith idnaToASCII (['a'] ++ atSeparator :: "bcom".data) = false :=
  host_split_two_parts_required idnaToASCII ['a'] "bcom".data
    (by decide) (by decide) (by decide)

/-- Claim C3 counterexample: contrary to the claim, the email predicate
returns false on "a.b+c@sub.example.io", because its host
"sub.example.io" contains two dots and the host split therefore yields
three parts, not two. -/
theorem subdomain_example_rejected : isEmail "a.b+c@sub.example.io" = false := by
  decide

/-- Claim C3 (amended): the email predicate returns true for
"user@example.com", but returns false for "a.b+c@sub.example.io", whose
host contains more than one dot. -/
theorem email_examples_amended :
    isEmail "user@example.com" = true ∧ isEmail "a.b+c@sub.example.io" = false := by
  decide

/-- Claim C4: every string that does not contain exactly one at-sign (zero
occurrences, or two or more, including the empty string) is rejected by
the email predicate, for every conversion collaborator. -/
theorem at_count_one_required (toA : List Char → Option (List Char))
    (email : List Char) (hat : email.count atSeparator ≠ 1) :
    isEmailWith toA email = false :=
  isEmailWith_at_count toA email hat

/-- Witness for C4 at the concrete input "a@b@c.com", which contains two
at-signs. -/
theorem at_count_one_required_witness :
    isEmailWith idnaToASCII "a@b@c.com".data = false :=
  at_count_one_required idnaToASCII "a@b@c.com".data (by decide)

/-- Claim C5: local-part length boundary: an otherwise-valid email whose
local part is exactly 64 characters from the allowed charset is accepted,
and one whose local part is 65 characters is rejected. -/
theorem local_length_boundary :
    isEmailWith idnaToASCII (List.replicate 64 'a' ++ atSeparator :: "b.com".data) = true
    ∧ isEmailWith idnaToASCII (List.replicate 65 'a' ++ atSeparator :: "b.com".data)
        = false := by
  decide

/-- Claim C6: for every input whose local part is mapped by the conversion
collaborator to a string that starts with a dot, ends with a dot, or
contains two consecutive dots, the email predicate returns false; in
particular ".a@b.com", "a.@b.com" and "a..b@c.com" are rejected. -/
theorem dotted_local_rejected :
    (∀ (toA : List Char → Option (List Char)) (locl host l : List Char),
        atSeparator ∉ locl → atSeparator ∉ host → toA locl = some l →
        matchUserDot l = true → isEmailWith toA (locl ++ atSeparator :: host) = false)
    ∧ isEmail ".a@b.com" = false ∧ isEmail "a.@b.com" = false
    ∧ isEmail "a..b@c.com" = false :=
  ⟨fun toA locl host l hl hh hA hdot =>
      isEmailWith_dotted_local toA locl host l hl hh hA hdot,
    by decide, by decide, by decide⟩

/-- Witness for C6 at the concrete local part "a." whose (identity)
conversion ends with a dot. -/
theorem dotted_local_rejected_witness :
    isEmailWith idnaToASCII ("a.".data ++ atSeparator :: "b.com".data) = false :=
  dotted_local_rejected.1 idnaToASCII "a.".data "b.com".data "a.".data
    (by decide) (by decide) (by decide) (by decide)

/-- Claim C7: the email predicate and `Validate` are deterministic and
stateless: two calls on the same string, and two calls on the same user,
yield the same result. -/
theorem email_validate_deterministic (s : String) (u : User) :
    (callTwice isEmail s).1 = (callTwice isEmail s).2
    ∧ (callTwice User.Validate u).1 = (callTwice User.Validate u).2 :=
  ⟨rfl, rfl⟩

/-- Claim C8: the method call `u.Validate()` leaves the receiver unchanged:
the Email, Password and Metadata fields after the call equal the fields
before it, and the returned error is exactly `Validate`'s result. -/
theorem validate_preserves_user (u : User) :
    (u.ValidateCall.1.Email = u.Email ∧ u.ValidateCall.1.Password = u.Password
      ∧ u.ValidateCall.1.Metadata = u.Metadata)
    ∧ u.ValidateCall.2 = u.Validate :=
  ⟨⟨rfl, rfl, rfl⟩, rfl⟩

/-- Claim C9: the limits of 64 on the local part, 255 on the domain and 24
on the TLD are byte counts of the raw input, checked before IDNA
conversion: a local part of at most 64 characters but more than 64 UTF-8
bytes is rejected for every conversion collaborator, and likewise a
domain of at most 255 characters but more than 255 bytes and a TLD of at
most 24 characters but more than 24 bytes, while a conversion whose
output for the local part exceeds 64 bytes is still accepted, the limits
never being re-checked after conversion. -/
theorem local_limit_raw_bytes_pre_idna :
    (∀ (toA : List Char → Option (List Char)) (locl host : List Char),
        atSeparator ∉ locl → atSeparator ∉ host → locl.length ≤ 64 → 64 < goLen locl →
        isEmailWith toA (locl ++ atSeparator :: host) = false)
    ∧ (∀ (toA : List Char → Option (List Char)) (locl domain ext : List Char),
        atSeparator ∉ locl → atSeparator ∉ domain → atSeparator ∉ ext →
        dotSeparator ∉ domain → dotSeparator ∉ ext →
        domain.length ≤ 255 → 255 < goLen domain →
        isEmailWith toA (locl ++ atSeparator :: (domain ++ dotSeparator :: ext)) = false)
    ∧ (∀ (toA : List Char → Option (List Char)) (locl domain ext : List Char),
        atSeparator ∉ locl → atSeparator ∉ domain → atSeparator ∉ ext →
        dotSeparator ∉ domain → dotSeparator ∉ ext →
        ext.length ≤ 24 → 24 < goLen ext →
        isEmailWith toA (locl ++ atSeparator :: (domain ++ dotSeparator :: ext)) = false)
    ∧ (wideToASCII "aaa".data = some (List.replicate 65 'a')
       ∧ 64 < goLen (List.replicate 65 'a')
       ∧ isEmailWith wideToASCII "aaa@b.com".data = true) :=
  ⟨fun toA locl host hl hh _ hbytes =>
      isEmailWith_long_local toA locl host hl hh hbytes,
    fun toA locl domain ext hl hd he hdd hde _ hbytes =>
      isEmailWith_long_domain toA locl domain ext hl hd he hdd hde hbytes,
    fun toA locl domain ext hl hd he hdd hde _ hbytes =>
      isEmailWith_long_ext toA locl domain ext hl hd he hdd hde hbytes,
    by decide, by decide, by decide⟩

/-- Witness for C9: a local part of 33 copies of the two-byte character
U+00E9 (33 characters, 66 bytes), a domain of 128 copies of it
(128 characters, 256 bytes) and a TLD of 13 copies of it (13 characters,
26 bytes) are each rejected. -/
theorem local_limit_raw_bytes_pre_idna_witness :
    isEmailWith idnaToASCII
      (List.replicate 33 (Char.ofNat 233) ++ atSeparator :: "b.com".data) = false
    ∧ isEmailWith idnaToASCII
      ("a".data ++ atSeparator ::
        (List.replicate 128 (Char.ofNat 233) ++ dotSeparator :: "io".data)) = false
    ∧ isEmailWith idnaToASCII
      ("a".data ++ atSeparator ::
        ("b".data ++ dotSeparator :: List.replicate 13 (Char.ofNat 233))) = false :=
  ⟨local_limit_raw_bytes_pre_idna.1 idnaToASCII
      (List.replicate 33 (Char.ofNat 233)) "b.com".data
      (by decide) (by decide) (by decide) (by decide),
    local_limit_raw_bytes_pre_idna.2.1 idnaToASCII
      "a".data (List.replicate 128 (Char.ofNat 233)) "io".data
      (by decide) (by decide) (by decide) (by decide) (by decide)
      (by decide) (by decide),
    local_limit_raw_bytes_pre_idna.2.2.1 idnaToASCII
      "a".data "b".data (List.replicate 13 (Char.ofNat 233))
      (by decide) (by decide) (by decide) (by decide) (by decide)
      (by decide) (by decide)⟩

/-- Claim C10: the result of `Validate` depends only on the Email and
Password fields: two users agreeing on those but with arbitrary different
Metadata validate identically. -/
theorem validate_ignores_metadata (e p : String)
    (m1 m2 : List (String × MetaValue)) :
    (User.mk e p m1).Validate = (User.mk e p m2).Validate := rfl

end Mainflux.Users
